import Mathlib

/-
Verification of the indicator-computation core of the DKNG stock-analysis
script (src/dkng/main.py).

Modelling conventions:
* A price series is a finite list of closing prices, `List Rat`; exact
  rational arithmetic idealises the scripts floating-point arithmetic.
* A derived pandas Series is modelled as a function from positional index
  to `Option Rat` (or `Option Real`): `none` is the NaN / undefined marker,
  and indices at or beyond the series length are `none` as well.
* Where the scripts arithmetic can produce IEEE special values that are
  then consumed by further arithmetic (the RSI division and the Sharpe
  ratio), values are tracked in the four-point extension `Ext` of the
  number line, with the IEEE-754 rules for +-infinity and NaN.
* In Daily_Return, a zero previous close is mapped to the undefined
  marker; every theorem that depends on the value of a return assumes
  strictly positive closes, where this case cannot arise.
-/

namespace Dkng

/-- Extension of a linearly ordered field by the IEEE-754 special values
plus infinity, minus infinity and NaN. -/
inductive Ext (α : Type) where
  | num (x : α)
  | pinf
  | ninf
  | nan
deriving DecidableEq

variable {α : Type} [LinearOrderedField α]

/-- IEEE-754 addition on `Ext`. -/
def Ext.add : Ext α → Ext α → Ext α
  | .nan, _ => .nan
  | _, .nan => .nan
  | .num a, .num b => .num (a + b)
  | .num _, .pinf => .pinf
  | .num _, .ninf => .ninf
  | .pinf, .num _ => .pinf
  | .ninf, .num _ => .ninf
  | .pinf, .pinf => .pinf
  | .ninf, .ninf => .ninf
  | .pinf, .ninf => .nan
  | .ninf, .pinf => .nan

/-- IEEE-754 subtraction on `Ext`. -/
def Ext.sub : Ext α → Ext α → Ext α
  | .nan, _ => .nan
  | _, .nan => .nan
  | .num a, .num b => .num (a - b)
  | .num _, .pinf => .ninf
  | .num _, .ninf => .pinf
  | .pinf, .num _ => .pinf
  | .ninf, .num _ => .ninf
  | .pinf, .pinf => .nan
  | .ninf, .ninf => .nan
  | .pinf, .ninf => .pinf
  | .ninf, .pinf => .ninf

/-- IEEE-754 multiplication on `Ext`. -/
def Ext.mul : Ext α → Ext α → Ext α
  | .nan, _ => .nan
  | _, .nan => .nan
  | .num a, .num b => .num (a * b)
  | .num a, .pinf => if 0 < a then .pinf else if a < 0 then .ninf else .nan
  | .pinf, .num a => if 0 < a then .pinf else if a < 0 then .ninf else .nan
  | .num a, .ninf => if 0 < a then .ninf else if a < 0 then .pinf else .nan
  | .ninf, .num a => if 0 < a then .ninf else if a < 0 then .pinf else .nan
  | .pinf, .pinf => .pinf
  | .ninf, .ninf => .pinf
  | .pinf, .ninf => .ninf
  | .ninf, .pinf => .ninf

/-- IEEE-754 division on `Ext` (one unsigned zero, as in the exact model). -/
def Ext.div : Ext α → Ext α → Ext α
  | .nan, _ => .nan
  | _, .nan => .nan
  | .num a, .num b =>
    if b = 0 then (if 0 < a then .pinf else if a < 0 then .ninf else .nan)
    else .num (a / b)
  | .num _, .pinf => .num 0
  | .num _, .ninf => .num 0
  | .pinf, .num b => if 0 ≤ b then .pinf else .ninf
  | .ninf, .num b => if 0 ≤ b then .ninf else .pinf
  | .pinf, .pinf => .nan
  | .pinf, .ninf => .nan
  | .ninf, .pinf => .nan
  | .ninf, .ninf => .nan

/-- Embed `Ext Rat` into `Ext Real`. -/
def Ext.toReal : Ext ℚ → Ext ℝ
  | .num q => .num (q : ℝ)
  | .pinf => .pinf
  | .ninf => .ninf
  | .nan => .nan

/-- An optional rational viewed as a float: `none` is NaN. -/
def toExt : Option ℚ → Ext ℚ
  | some q => .num q
  | none => .nan

/-- Line 17, dkng["Close"].pct_change(): entry 0 is NaN, entry i is
close[i]/close[i-1] - 1.  A zero denominator is mapped to the undefined
marker (see the modelling note in the file header). -/
def Daily_Return (closes : List ℚ) (i : ℕ) : Option ℚ :=
  if i = 0 then none
  else
    match closes[i]?, closes[i - 1]? with
    | some a, some b => if b = 0 then none else some (a / b - 1)
    | _, _ => none

/-- pandas Series.rolling(window = w).mean() with the default
min_periods = w: the value at position i aggregates positions
i-w+1 .. i and is NaN unless all w of them exist and are non-NaN. -/
def rollingMean (w : ℕ) (f : ℕ → Option ℚ) (i : ℕ) : Option ℚ :=
  let win := (List.range w).map fun j => f (i + 1 - w + j)
  if w ≤ i + 1 ∧ win.all Option.isSome then
    some ((win.map fun o => o.getD 0).sum / (w : ℚ))
  else none

/-- Lines 21-23, dkng["Close"].rolling(window = w).mean(), the simple
moving averages MA_20 / MA_50 / MA_200. -/
def MA (w : ℕ) (closes : List ℚ) (i : ℕ) : Option ℚ :=
  rollingMean w (fun k => closes[k]?) i

/-- Sample variance with denominator n - 1 (pandas default ddof = 1);
only ever applied to windows of length at least 2. -/
def svar (xs : List ℚ) : ℚ :=
  ((xs.map fun x => (x - xs.sum / (xs.length : ℚ)) ^ 2).sum) / ((xs.length : ℚ) - 1)

/-- pandas Series.rolling(window = w).std() squared: the rolling sample
variance, with the same NaN discipline as `rollingMean`. -/
def rollingSVar (w : ℕ) (f : ℕ → Option ℚ) (i : ℕ) : Option ℚ :=
  let win := (List.range w).map fun j => f (i + 1 - w + j)
  if w ≤ i + 1 ∧ win.all Option.isSome then
    some (svar (win.map fun o => o.getD 0))
  else none

/-- Line 26, dkng["Daily_Return"].rolling(window = 20).std() * sqrt(252). -/
noncomputable def Volatility (closes : List ℚ) (i : ℕ) : Option ℝ :=
  (rollingSVar 20 (Daily_Return closes) i).map fun v : ℚ => Real.sqrt (v : ℝ) * Real.sqrt 252

/-- Line 30, delta = data.diff() inside calculate_rsi. -/
def delta (closes : List ℚ) (i : ℕ) : Option ℚ :=
  if i = 0 then none
  else
    match closes[i]?, closes[i - 1]? with
    | some a, some b => some (a - b)
    | _, _ => none

/-- delta.where(delta > 0, 0): the comparison NaN > 0 is False in pandas,
so the NaN at position 0 is replaced by 0 as well. -/
def gainW (closes : List ℚ) (i : ℕ) : Option ℚ :=
  if i < closes.length then
    some (match delta closes i with
          | some d => if 0 < d then d else 0
          | none => 0)
  else none

/-- -delta.where(delta < 0, 0): negation of the kept negative deltas. -/
def lossW (closes : List ℚ) (i : ℕ) : Option ℚ :=
  if i < closes.length then
    some (match delta closes i with
          | some d => if d < 0 then -d else 0
          | none => 0)
  else none

/-- Line 31, gain = (delta.where(delta > 0, 0)).rolling(window = period).mean(). -/
def gain (closes : List ℚ) (period i : ℕ) : Option ℚ :=
  rollingMean period (gainW closes) i

/-- Line 32, loss = (-delta.where(delta < 0, 0)).rolling(window = period).mean(). -/
def loss (closes : List ℚ) (period i : ℕ) : Option ℚ :=
  rollingMean period (lossW closes) i

/-- Line 33, rs = gain / loss, with the IEEE division semantics: a
positive average gain over a zero average loss is plus infinity, 0 / 0
is NaN. -/
def rs (closes : List ℚ) (period i : ℕ) : Ext ℚ :=
  Ext.div (toExt (gain closes period i)) (toExt (loss closes period i))

/-- Line 34, rsi = 100 - (100 / (1 + rs)). -/
def calculate_rsi (closes : List ℚ) (period i : ℕ) : Ext ℚ :=
  Ext.sub (.num 100) (Ext.div (.num 100) (Ext.add (.num 1) (rs closes period i)))

/-- Tail recursion of Series.ewm(span = s, adjust = False).mean():
each output is a * x + (1 - a) * previous output. -/
def ewmaAux (a : ℚ) : ℚ → List ℚ → List ℚ
  | _, [] => []
  | prev, x :: xs =>
    let y := a * x + (1 - a) * prev
    y :: ewmaAux a y xs

/-- Series.ewm(span = s, adjust = False).mean() with a = 2 / (s + 1):
the first output equals the first input. -/
def ewma (s : ℕ) : List ℚ → List ℚ
  | [] => []
  | x :: xs => x :: ewmaAux (2 / ((s : ℚ) + 1)) x xs

/-- Line 40, exp1 = dkng["Close"].ewm(span = 12, adjust = False).mean(). -/
def exp1 (closes : List ℚ) : List ℚ := ewma 12 closes

/-- Line 41, exp2 = dkng["Close"].ewm(span = 26, adjust = False).mean(). -/
def exp2 (closes : List ℚ) : List ℚ := ewma 26 closes

/-- Line 42, dkng["MACD"] = exp1 - exp2. -/
def MACD (closes : List ℚ) : List ℚ :=
  List.zipWith (fun a b => a - b) (exp1 closes) (exp2 closes)

/-- Line 43, dkng["MACD"].ewm(span = 9, adjust = False).mean(). -/
def Signal_Line (closes : List ℚ) : List ℚ := ewma 9 (MACD closes)

/-- Line 44, dkng["MACD_Histogram"] = MACD - Signal_Line. -/
def MACD_Histogram (closes : List ℚ) : List ℚ :=
  List.zipWith (fun a b => a - b) (MACD closes) (Signal_Line closes)

/-- Running product of (1 + Daily_Return) through index i, skipping the
undefined entries: pandas cumprod with the default skipna = True. -/
def cumAcc (closes : List ℚ) : ℕ → ℚ
  | 0 => match Daily_Return closes 0 with | some r => 1 + r | none => 1
  | i + 1 => cumAcc closes i * (match Daily_Return closes (i + 1) with | some r => 1 + r | none => 1)

/-- Lines 121-122, dkng_cum = (1 + dkng["Daily_Return"]).cumprod() - 1:
an entry is NaN exactly where Daily_Return is NaN (cumprod keeps NaN in
place under skipna = True), otherwise the running product minus 1. -/
def dkng_cum (closes : List ℚ) (i : ℕ) : Option ℚ :=
  (Daily_Return closes i).map fun _ => cumAcc closes i - 1

/-- Running maximum of a sequence through index i. -/
def runMax (f : ℕ → ℚ) : ℕ → ℚ
  | 0 => f 0
  | i + 1 => max (runMax f i) (f (i + 1))

/-- Series.cummax() on the close prices. -/
def cummax (closes : List ℚ) : ℕ → ℚ := runMax fun k => closes.getD k 0

/-- The series dkng["Close"] / dkng["Close"].cummax() - 1 of line 51. -/
def drawdown (closes : List ℚ) (i : ℕ) : ℚ :=
  closes.getD i 0 / cummax closes i - 1

/-- Line 51, max_drawdown = (close / close.cummax() - 1).min() * 100;
the min over an empty series is NaN. -/
def max_drawdown (closes : List ℚ) : Option ℚ :=
  (((List.range closes.length).map (drawdown closes)).min?).map fun m => m * 100

/-- The non-NaN entries of Daily_Return, in positional order: this is
what the skipna aggregations mean() and std() of line 50 consume. -/
def returnVals (closes : List ℚ) : List ℚ :=
  (List.range closes.length).filterMap (Daily_Return closes)

/-- dkng["Daily_Return"].mean(): NaN when no entry is defined. -/
def meanReturn (closes : List ℚ) : Ext ℚ :=
  if (returnVals closes).length = 0 then .nan
  else .num ((returnVals closes).sum / ((returnVals closes).length : ℚ))

/-- dkng["Daily_Return"].std(): sample standard deviation (ddof = 1),
NaN when fewer than two entries are defined. -/
noncomputable def stdReturn (closes : List ℚ) : Ext ℝ :=
  if (returnVals closes).length < 2 then .nan
  else .num (Real.sqrt ((svar (returnVals closes) : ℚ) : ℝ))

/-- Line 50, sharpe_ratio = (mean * 252) / (std * sqrt(252)) with IEEE
arithmetic: 0 / 0 is NaN, positive / 0 is plus infinity. -/
noncomputable def sharpe_ratio (closes : List ℚ) : Ext ℝ :=
  Ext.div (Ext.mul (Ext.toReal (meanReturn closes)) (.num 252))
          (Ext.mul (stdReturn closes) (.num (Real.sqrt 252)))

/-- Line 57, dkng["Close"].tail(252).max(): the maximum over the trailing
min(N, 252) observations. -/
def week52_high (closes : List ℚ) : Option ℚ :=
  (closes.drop (closes.length - 252)).max?

/-- Line 58, dkng["Close"].tail(252).min(). -/
def week52_low (closes : List ℚ) : Option ℚ :=
  (closes.drop (closes.length - 252)).min?

/-- Modelled from the spec (4.1 and 4.6), for the refinement claim about
max_drawdown: cumulative_return[i] = product of (1 + daily_return[k]) for
k = 1 .. i, entry 0 = 1, with daily_return[k] = close[k]/close[k-1] - 1. -/
def cumulative_return_spec (closes : List ℚ) : ℕ → ℚ
  | 0 => 1
  | i + 1 => cumulative_return_spec closes i *
      (1 + (closes.getD (i + 1) 0 / closes.getD i 0 - 1))

/-- Modelled from the spec (4.6): max_drawdown_pct = min over i of
(cumulative_return[i] / running_max(cumulative_return)[i] - 1) * 100. -/
def max_drawdown_spec (closes : List ℚ) : Option ℚ :=
  (((List.range closes.length).map fun i =>
      cumulative_return_spec closes i / runMax (cumulative_return_spec closes) i - 1).min?).map
    fun m => m * 100

/-! ### Helper lemmas -/

lemma getElem?_of_lt {l : List ℚ} {i : ℕ} (h : i < l.length) :
    l[i]? = some (l.getD i 0) := by
  rw [List.getElem?_eq_getElem h, List.getD_eq_getElem l 0 h]

lemma Ext.add_nan_right (y : Ext α) : Ext.add y .nan = .nan := by
  cases y <;> rfl

lemma Ext.div_nan_left (y : Ext α) : Ext.div .nan y = .nan := by
  cases y <;> rfl

lemma Ext.div_nan_right (y : Ext α) : Ext.div y .nan = .nan := by
  cases y <;> rfl

/-! ### Claim C10: 52-week high and low -/

/-- Claim C10 (confirmed): week52_high and week52_low are the maximum and
minimum close over the trailing min(N, 252) observations; when the series
is shorter than 252 observations the trailing window clamps to the whole
series, and for a non-empty series both values are defined. -/
theorem week52_trailing_clamp (closes : List ℚ) (h : closes ≠ []) :
    (closes.drop (closes.length - 252)).length = min closes.length 252
    ∧ week52_high closes = (closes.drop (closes.length - 252)).max?
    ∧ week52_low closes = (closes.drop (closes.length - 252)).min?
    ∧ (closes.length ≤ 252 →
        week52_high closes = closes.max? ∧ week52_low closes = closes.min?)
    ∧ (week52_high closes).isSome ∧ (week52_low closes).isSome := by
  have hlen : (closes.drop (closes.length - 252)).length = min closes.length 252 := by
    rw [List.length_drop]; omega
  have hpos : 0 < closes.length := List.length_pos.2 h
  have hne : closes.drop (closes.length - 252) ≠ [] := by
    intro he
    have := congrArg List.length he
    rw [hlen] at this
    simp only [List.length_nil] at this
    omega
  refine ⟨hlen, rfl, rfl, ?_, ?_, ?_⟩
  · intro h252
    have hz : closes.length - 252 = 0 := by omega
    rw [week52_high, week52_low, hz, List.drop_zero]
    exact ⟨rfl, rfl⟩
  · rw [Option.isSome_iff_ne_none]
    intro hn
    exact hne (List.max?_eq_none_iff.1 hn)
  · rw [Option.isSome_iff_ne_none]
    intro hn
    exact hne (List.min?_eq_none_iff.1 hn)

/-- Witness for C10 at the concrete three-element series [5, 3, 7]. -/
theorem week52_trailing_clamp_witness :
    week52_high [5, 3, 7] = ([5, 3, 7] : List ℚ).max?
    ∧ week52_low [5, 3, 7] = ([5, 3, 7] : List ℚ).min? :=
  (week52_trailing_clamp [5, 3, 7] (by decide)).2.2.2.1 (by decide)

/-! ### Claim C7: exponential moving averages -/

/-- The contract of one EMA pass: same length as the input (so a value at
every one of the N indices, no undefined warm-up entries), first output
equal to the first input, and the smoothing recurrence at every later
index. -/
def emaProp (out inp : List ℚ) (a : ℚ) : Prop :=
  out.length = inp.length ∧ out[0]? = inp[0]? ∧
  ∀ i, 1 ≤ i → i < inp.length →
    out.getD i 0 = a * inp.getD i 0 + (1 - a) * out.getD (i - 1) 0

lemma ewmaAux_length (a prev : ℚ) (xs : List ℚ) :
    (ewmaAux a prev xs).length = xs.length := by
  induction xs generalizing prev with
  | nil => rfl
  | cons x t ih => simp [ewmaAux, ih]

lemma ewmaAux_getD (a : ℚ) (xs : List ℚ) (prev : ℚ) (i : ℕ) (h : i < xs.length) :
    (ewmaAux a prev xs).getD i 0 =
      a * xs.getD i 0 +
        (1 - a) * (if i = 0 then prev else (ewmaAux a prev xs).getD (i - 1) 0) := by
  induction xs generalizing prev i with
  | nil => simp at h
  | cons x t ih =>
    cases i with
    | zero => simp [ewmaAux]
    | succ j =>
      have hj : j < t.length := by simpa using h
      simp only [ewmaAux, List.getD_cons_succ]
      rw [ih _ _ hj]
      cases j with
      | zero => simp
      | succ k => simp [List.getD_cons_succ]

lemma ewma_emaProp (s : ℕ) (xs : List ℚ) :
    emaProp (ewma s xs) xs (2 / ((s : ℚ) + 1)) := by
  cases xs with
  | nil => exact ⟨rfl, rfl, fun i h1 h2 => absurd h2 (by simp)⟩
  | cons x t =>
    refine ⟨by simp [ewma, ewmaAux_length], by simp [ewma], ?_⟩
    intro i h1 h2
    obtain ⟨j, rfl⟩ : ∃ j, i = j + 1 := ⟨i - 1, by omega⟩
    have hj : j < t.length := by
      simp only [List.length_cons] at h2; omega
    simp only [ewma, List.getD_cons_succ]
    rw [ewmaAux_getD _ _ _ _ hj]
    cases j with
    | zero => simp
    | succ k => simp [List.getD_cons_succ]

/-- Claim C7 (confirmed): each EMA of the script (spans 12 and 26 on the
close series and the span-9 signal line on the MACD series) has its first
entry equal to the first entry of its input, satisfies the recurrence
ema[i] = a * input[i] + (1 - a) * ema[i-1] with a = 2/(span + 1) at every
index i >= 1, and is defined at all N positions (full length, no
undefined warm-up entries). -/
theorem ema_recurrence_full_length (closes : List ℚ) (h : closes ≠ []) :
    emaProp (exp1 closes) closes (2 / 13)
    ∧ emaProp (exp2 closes) closes (2 / 27)
    ∧ emaProp (Signal_Line closes) (MACD closes) (2 / 10) := by
  refine ⟨?_, ?_, ?_⟩
  · have h1 := ewma_emaProp 12 closes
    have e1 : (2 : ℚ) / (((12 : ℕ) : ℚ) + 1) = 2 / 13 := by norm_num
    rw [e1] at h1
    exact h1
  · have h2 := ewma_emaProp 26 closes
    have e2 : (2 : ℚ) / (((26 : ℕ) : ℚ) + 1) = 2 / 27 := by norm_num
    rw [e2] at h2
    exact h2
  · have h3 := ewma_emaProp 9 (MACD closes)
    have e3 : (2 : ℚ) / (((9 : ℕ) : ℚ) + 1) = 2 / 10 := by norm_num
    rw [e3] at h3
    exact h3

/-- Witness for C7 at the concrete series [100, 102]. -/
theorem ema_recurrence_full_length_witness :
    emaProp (exp1 [100, 102]) [100, 102] (2 / 13)
    ∧ emaProp (exp2 [100, 102]) [100, 102] (2 / 27)
    ∧ emaProp (Signal_Line [100, 102]) (MACD [100, 102]) (2 / 10) :=
  ema_recurrence_full_length [100, 102] (by decide)

/-! ### Claim C6: simple moving averages -/

lemma MA_eq_some {w : ℕ} {closes : List ℚ} {i : ℕ}
    (hi : i < closes.length) (hge : w ≤ i + 1) :
    MA w closes i =
      some (((List.range w).map fun j => closes.getD (i + 1 - w + j) 0).sum / (w : ℚ)) := by
  have hall : ((List.range w).map fun j => closes[i + 1 - w + j]?).all Option.isSome = true := by
    rw [List.all_eq_true]
    intro o ho
    obtain ⟨j, hj, rfl⟩ := List.mem_map.1 ho
    have hjw : j < w := List.mem_range.1 hj
    rw [getElem?_of_lt (show i + 1 - w + j < closes.length by omega)]
    rfl
  have hcond : w ≤ i + 1 ∧
      ((List.range w).map fun j => closes[i + 1 - w + j]?).all Option.isSome := ⟨hge, hall⟩
  simp only [MA, rollingMean]
  rw [if_pos hcond]
  refine congrArg some ?_
  rw [List.map_map]
  refine congrArg (fun z => z / (w : ℚ)) ?_
  refine congrArg List.sum ?_
  apply List.map_congr_left
  intro j hj
  simp [Function.comp, List.getD_eq_getElem?_getD]

lemma MA_eq_none_low {w : ℕ} {closes : List ℚ} {i : ℕ} (hlow : i + 1 < w) :
    MA w closes i = none := by
  simp only [MA, rollingMean]
  rw [if_neg]
  intro hc
  exact absurd hc.1 (by omega)

lemma MA_eq_none_high {w : ℕ} {closes : List ℚ} {i : ℕ}
    (hw : 1 ≤ w) (hi : closes.length ≤ i) :
    MA w closes i = none := by
  simp only [MA, rollingMean]
  rw [if_neg]
  rintro ⟨h1, h2⟩
  have hm : closes[i + 1 - w + (w - 1)]? ∈
      (List.range w).map fun j => closes[i + 1 - w + j]? :=
    List.mem_map.2 ⟨w - 1, List.mem_range.2 (by omega), rfl⟩
  have := List.all_eq_true.1 h2 _ hm
  have hidx : i + 1 - w + (w - 1) = i := by omega
  rw [hidx, List.getElem?_eq_none hi] at this
  simp at this

/-- Claim C6 (corrected): for windows 20/50/200, the SMA at index i is
defined exactly when i >= w - 1 (within the series), each defined entry is
the w-window mean of the closes, the number of defined entries is
N - (w - 1) and the number of undefined entries is min(N, w - 1).  The
frozen claim asserted exactly w - 1 undefined and N - w + 1 defined
entries for EVERY series; that fails when N < w - 1 (see the
counterexample), so the counts are clamped to the series length here. -/
theorem MA_shape (w : ℕ) (hw : w = 20 ∨ w = 50 ∨ w = 200) (closes : List ℚ) :
    (∀ i, i < closes.length →
      (((MA w closes i).isSome ↔ w - 1 ≤ i)
       ∧ (w - 1 ≤ i → MA w closes i =
            some (((List.range w).map fun j => closes.getD (i + 1 - w + j) 0).sum / (w : ℚ)))))
    ∧ ((Finset.range closes.length).filter fun i => (MA w closes i).isSome).card
        = closes.length - (w - 1)
    ∧ ((Finset.range closes.length).filter fun i => (MA w closes i).isNone).card
        = min closes.length (w - 1) := by
  have hw1 : 1 ≤ w := by rcases hw with h | h | h <;> omega
  have hpoint : ∀ i, i < closes.length → ((MA w closes i).isSome ↔ w - 1 ≤ i) := by
    intro i hi
    constructor
    · intro hs
      by_contra hlt
      rw [MA_eq_none_low (show i + 1 < w by omega)] at hs
      simp at hs
    · intro hge
      rw [MA_eq_some hi (by omega)]
      rfl
  refine ⟨fun i hi => ⟨hpoint i hi, fun hge => MA_eq_some hi (by omega)⟩, ?_, ?_⟩
  · have hfe : ((Finset.range closes.length).filter fun i => (MA w closes i).isSome)
        = Finset.Ico (w - 1) closes.length := by
      ext i
      simp only [Finset.mem_filter, Finset.mem_range, Finset.mem_Ico]
      constructor
      · rintro ⟨hi, hs⟩
        exact ⟨(hpoint i hi).1 hs, hi⟩
      · rintro ⟨hge, hi⟩
        exact ⟨hi, (hpoint i hi).2 hge⟩
    rw [hfe, Nat.card_Ico]
  · have hfe : ((Finset.range closes.length).filter fun i => (MA w closes i).isNone)
        = Finset.range (min closes.length (w - 1)) := by
      ext i
      simp only [Finset.mem_filter, Finset.mem_range, Nat.lt_min]
      constructor
      · rintro ⟨hi, hn⟩
        refine ⟨hi, ?_⟩
        by_contra hge
        have := (hpoint i hi).2 (by omega)
        rw [Option.isSome_iff_ne_none] at this
        rw [Option.isNone_iff_eq_none] at hn
        exact this hn
      · rintro ⟨hi, hlt⟩
        refine ⟨hi, ?_⟩
        rw [Option.isNone_iff_eq_none]
        exact MA_eq_none_low (by omega)
    rw [hfe, Finset.card_range]

/-- Witness for C6 at window 20 on a 25-element series: index 19 is
defined and exactly 25 - 19 = 6 entries are defined. -/
theorem MA_shape_witness :
    (MA 20 (List.replicate 25 (1 : ℚ)) 19).isSome = true
    ∧ ((Finset.range 25).filter
        fun i => (MA 20 (List.replicate 25 (1 : ℚ)) i).isSome).card = 6 := by
  have h := MA_shape 20 (Or.inl rfl) (List.replicate 25 (1 : ℚ))
  constructor
  · exact ((h.1 19 (by simp)).1).mpr (by norm_num)
  · have h2 := h.2.1
    rw [List.length_replicate] at h2
    exact h2

/-- Counterexample for C6 as frozen: on a 5-element series with window 20
all 5 entries are undefined, not w - 1 = 19 of them. -/
theorem MA_short_series_counts :
    ((Finset.range 5).filter fun i => (MA 20 ([1, 1, 1, 1, 1] : List ℚ) i).isNone).card = 5
    ∧ (5 : ℕ) ≠ 20 - 1 := by
  decide

/-! ### Claim C1: cumulative return -/

lemma Daily_Return_zero (closes : List ℚ) : Daily_Return closes 0 = none := by
  simp [Daily_Return]

lemma Daily_Return_pos_some {closes : List ℚ}
    (hpos : ∀ k, k < closes.length → 0 < closes.getD k 0)
    {i : ℕ} (h1 : 1 ≤ i) (hi : i < closes.length) :
    Daily_Return closes i = some (closes.getD i 0 / closes.getD (i - 1) 0 - 1) := by
  have hi1 : i - 1 < closes.length := by omega
  simp only [Daily_Return, if_neg (show ¬ i = 0 by omega),
    getElem?_of_lt hi, getElem?_of_lt hi1]
  rw [if_neg (ne_of_gt (hpos (i - 1) hi1))]

lemma cumAcc_eq {closes : List ℚ}
    (hpos : ∀ k, k < closes.length → 0 < closes.getD k 0) :
    ∀ i, i < closes.length → cumAcc closes i = closes.getD i 0 / closes.getD 0 0 := by
  intro i
  induction i with
  | zero =>
    intro h0
    rw [cumAcc, Daily_Return_zero]
    rw [div_self (ne_of_gt (hpos 0 h0))]
  | succ j ih =>
    intro hj1
    have hj : j < closes.length := by omega
    rw [cumAcc, ih hj, Daily_Return_pos_some hpos (by omega) hj1]
    simp only [Nat.add_sub_cancel]
    have hcj : closes.getD j 0 ≠ 0 := ne_of_gt (hpos j hj)
    have h1x : (1 : ℚ) + (closes.getD (j + 1) 0 / closes.getD j 0 - 1)
        = closes.getD (j + 1) 0 / closes.getD j 0 := by ring
    rw [h1x, div_mul_div_comm, mul_comm (closes.getD 0 0) (closes.getD j 0)]
    exact mul_div_mul_left _ _ hcj

/-- Claim C1 (corrected): in the script, dkng_cum is the cumulative
product of (1 + daily_return) MINUS 1, and its entry 0 is the undefined
marker (NaN), not 1.0: pct_change leaves entry 0 NaN and cumprod keeps
NaN in place.  For a series with all closes positive, every entry
i >= 1 equals close[i]/close[0] - 1 exactly, which is the content of the
round-trip identity after the minus-1 offset is accounted for. -/
theorem dkng_cum_closed_form (closes : List ℚ)
    (hpos : ∀ k, k < closes.length → 0 < closes.getD k 0) :
    dkng_cum closes 0 = none
    ∧ ∀ i, 1 ≤ i → i < closes.length →
        dkng_cum closes i = some (closes.getD i 0 / closes.getD 0 0 - 1) := by
  constructor
  · rw [dkng_cum, Daily_Return_zero]
    rfl
  · intro i h1 hi
    rw [dkng_cum, Daily_Return_pos_some hpos h1 hi]
    simp only [Option.map_some']
    rw [cumAcc_eq hpos i hi]

/-- Witness for C1 at the concrete series [100, 102]. -/
theorem dkng_cum_closed_form_witness :
    dkng_cum [100, 102] 0 = none
    ∧ dkng_cum [100, 102] 1 =
        some (([100, 102] : List ℚ).getD 1 0 / ([100, 102] : List ℚ).getD 0 0 - 1) := by
  have h := dkng_cum_closed_form [100, 102] (by decide)
  exact ⟨h.1, h.2 1 (by decide) (by decide)⟩

/-- Counterexample for C1 as frozen: entry 0 of dkng_cum is the undefined
marker, not 1.0; entry 1 is the product minus 1, not the product
close[1]/close[0]; and for [1, 0, 0] (which satisfies close[0] > 0) the
entry at index 2 is undefined rather than equal to close[2]/close[0]. -/
theorem dkng_cum_counterexample :
    dkng_cum [100, 102] 0 ≠ some 1
    ∧ dkng_cum [100, 102] 1 ≠ some ((102 : ℚ) / 100)
    ∧ dkng_cum [1, 0, 0] 2 ≠ some ((0 : ℚ) / 1) := by
  refine ⟨by decide, ?_, by decide⟩
  norm_num [dkng_cum, cumAcc, Daily_Return]

/-! ### Claim C3: maximum drawdown, code formula vs spec formula -/

lemma cumulative_return_spec_eq {closes : List ℚ}
    (hpos : ∀ k, k < closes.length → 0 < closes.getD k 0) :
    ∀ i, i < closes.length →
      cumulative_return_spec closes i = closes.getD i 0 / closes.getD 0 0 := by
  intro i
  induction i with
  | zero =>
    intro h0
    rw [cumulative_return_spec]
    rw [div_self (ne_of_gt (hpos 0 h0))]
  | succ j ih =>
    intro hj1
    have hj : j < closes.length := by omega
    rw [cumulative_return_spec, ih hj]
    have hcj : closes.getD j 0 ≠ 0 := ne_of_gt (hpos j hj)
    have h1x : (1 : ℚ) + (closes.getD (j + 1) 0 / closes.getD j 0 - 1)
        = closes.getD (j + 1) 0 / closes.getD j 0 := by ring
    rw [h1x, div_mul_div_comm, mul_comm (closes.getD 0 0) (closes.getD j 0)]
    exact mul_div_mul_left _ _ hcj

lemma cummax_pos {closes : List ℚ}
    (hpos : ∀ k, k < closes.length → 0 < closes.getD k 0) :
    ∀ i, i < closes.length → 0 < cummax closes i := by
  intro i
  induction i with
  | zero =>
    intro h0
    exact hpos 0 h0
  | succ j ih =>
    intro hj1
    have hj : j < closes.length := by omega
    exact lt_max_iff.2 (Or.inl (ih hj))

lemma runMax_spec_eq {closes : List ℚ}
    (hpos : ∀ k, k < closes.length → 0 < closes.getD k 0) :
    ∀ i, i < closes.length →
      runMax (cumulative_return_spec closes) i = cummax closes i / closes.getD 0 0 := by
  intro i
  induction i with
  | zero =>
    intro h0
    show cumulative_return_spec closes 0 = cummax closes 0 / closes.getD 0 0
    rw [cumulative_return_spec]
    show (1 : ℚ) = closes.getD 0 0 / closes.getD 0 0
    rw [div_self (ne_of_gt (hpos 0 h0))]
  | succ j ih =>
    intro hj1
    have hj : j < closes.length := by omega
    have h0 : (0 : ℚ) ≤ closes.getD 0 0 := le_of_lt (hpos 0 (by omega))
    show max (runMax (cumulative_return_spec closes) j) (cumulative_return_spec closes (j + 1))
        = max (cummax closes j) (closes.getD (j + 1) 0) / closes.getD 0 0
    rw [ih hj, cumulative_return_spec_eq hpos (j + 1) hj1, max_div_div_right h0]

/-- Claim C3 (confirmed): for a series of strictly positive closes, the
code formula min_i (close[i]/cummax(close)[i] - 1) * 100 agrees with the
spec formula min_i (cumret[i]/running_max(cumret)[i] - 1) * 100, where
cumret follows the spec: entry 0 = 1 and cumret[i] the product of
(1 + daily_return[k]) for k = 1 .. i. -/
theorem max_drawdown_refines_spec (closes : List ℚ)
    (hpos : ∀ k, k < closes.length → 0 < closes.getD k 0) :
    max_drawdown closes = max_drawdown_spec closes := by
  rw [max_drawdown, max_drawdown_spec]
  have hmap : (List.range closes.length).map (drawdown closes)
      = (List.range closes.length).map fun i =>
          cumulative_return_spec closes i / runMax (cumulative_return_spec closes) i - 1 := by
    apply List.map_congr_left
    intro i hi
    have hi' : i < closes.length := List.mem_range.1 hi
    rw [drawdown, cumulative_return_spec_eq hpos i hi', runMax_spec_eq hpos i hi']
    have h0 : closes.getD 0 0 ≠ 0 := ne_of_gt (hpos 0 (by omega))
    have hM : cummax closes i ≠ 0 := ne_of_gt (cummax_pos hpos i hi')
    have key : ∀ a b c : ℚ, c ≠ 0 → b ≠ 0 → a / c / (b / c) = a / b := by
      intro a b c hc hb
      field_simp
    rw [key _ _ _ h0 hM]
  rw [hmap]

/-- Witness for C3 at the concrete series [100, 102, 101]. -/
theorem max_drawdown_refines_spec_witness :
    max_drawdown [100, 102, 101] = max_drawdown_spec [100, 102, 101] :=
  max_drawdown_refines_spec [100, 102, 101] (by decide)

/-! ### Claims C4 and C9: RSI -/

lemma gainW_getD_nonneg (closes : List ℚ) (k : ℕ) : 0 ≤ (gainW closes k).getD 0 := by
  by_cases hk : k < closes.length
  · simp only [gainW, if_pos hk, Option.getD_some]
    cases hd : delta closes k with
    | none => simp
    | some d =>
      by_cases h0 : 0 < d
      · simp [h0, le_of_lt h0]
      · simp [h0]
  · simp [gainW, hk]

lemma lossW_getD_nonneg (closes : List ℚ) (k : ℕ) : 0 ≤ (lossW closes k).getD 0 := by
  by_cases hk : k < closes.length
  · simp only [lossW, if_pos hk, Option.getD_some]
    cases hd : delta closes k with
    | none => simp
    | some d =>
      by_cases h0 : d < 0
      · simp [h0, le_of_lt (neg_pos.2 h0)]
      · simp [h0]
  · simp [lossW, hk]

lemma rollingMean_nonneg {f : ℕ → Option ℚ} (hf : ∀ k, 0 ≤ (f k).getD 0)
    {w i : ℕ} {g : ℚ} (h : rollingMean w f i = some g) : 0 ≤ g := by
  simp only [rollingMean] at h
  split at h
  · have hg := Option.some.inj h
    subst hg
    apply div_nonneg
    · apply List.sum_nonneg
      intro x hx
      rw [List.map_map] at hx
      obtain ⟨j, hj, rfl⟩ := List.mem_map.1 hx
      exact hf _
    · exact_mod_cast Nat.zero_le w
  · exact absurd h (by simp)

lemma gain_nonneg {closes : List ℚ} {period i : ℕ} {g : ℚ}
    (h : gain closes period i = some g) : 0 ≤ g :=
  rollingMean_nonneg (gainW_getD_nonneg closes) h

lemma loss_nonneg {closes : List ℚ} {period i : ℕ} {l : ℚ}
    (h : loss closes period i = some l) : 0 ≤ l :=
  rollingMean_nonneg (lossW_getD_nonneg closes) h

/-- Claim C4 (confirmed): at any index where the 14-window average loss
is 0 and the average gain is positive, the script returns RSI = 100
exactly: the intermediate rs is plus infinity but 100 - 100/(1 + inf)
collapses to the finite sentinel 100, with no exception and no infinite
or NaN value in the output.  Where both averages are 0, rs = 0/0 = NaN
and the RSI entry is the undefined marker. -/
theorem rsi_singularity (closes : List ℚ) (i : ℕ) :
    (∀ g : ℚ, gain closes 14 i = some g → 0 < g → loss closes 14 i = some 0 →
        calculate_rsi closes 14 i = Ext.num 100)
    ∧ (gain closes 14 i = some 0 → loss closes 14 i = some 0 →
        calculate_rsi closes 14 i = Ext.nan) := by
  constructor
  · intro g hg hgpos hl
    simp only [calculate_rsi, rs, hg, hl, toExt]
    rw [show Ext.div (Ext.num g) (Ext.num 0) = Ext.pinf by
      simp [Ext.div, hgpos]]
    show Ext.sub (Ext.num 100) (Ext.div (Ext.num 100) Ext.pinf) = Ext.num 100
    show Ext.sub (Ext.num 100) (Ext.num 0) = Ext.num 100
    show Ext.num (100 - 0) = Ext.num 100
    norm_num
  · intro hg hl
    simp only [calculate_rsi, rs, hg, hl, toExt]
    rw [show Ext.div (Ext.num (0 : ℚ)) (Ext.num 0) = Ext.nan by
      simp [Ext.div]]
    rfl

/-- Witness for C4: a strictly increasing series makes RSI exactly 100
at index 13, a constant series makes it the undefined marker. -/
theorem rsi_singularity_witness :
    calculate_rsi [1, 2, 3, 4, 5, 6, 7, 8, 9, 10, 11, 12, 13, 14, 15] 14 13 = Ext.num 100
    ∧ calculate_rsi (List.replicate 15 (1 : ℚ)) 14 13 = Ext.nan := by
  constructor
  · exact (rsi_singularity [1, 2, 3, 4, 5, 6, 7, 8, 9, 10, 11, 12, 13, 14, 15] 13).1 (13 / 14)
      (by norm_num [gain, rollingMean, gainW, delta, List.range_succ])
      (by norm_num)
      (by norm_num [loss, rollingMean, lossW, delta, List.range_succ])
  · exact (rsi_singularity (List.replicate 15 (1 : ℚ)) 13).2
      (by norm_num [gain, rollingMean, gainW, delta, List.range_succ, List.replicate])
      (by norm_num [loss, rollingMean, lossW, delta, List.range_succ, List.replicate])

/-- Claim C9 (confirmed): wherever the script RSI is a number at all, it
lies in [0, 100]: average gain and loss are non-negative, so rs is a
non-negative number, plus infinity, or NaN, and 100 - 100/(1 + rs) is
bounded accordingly. -/
theorem rsi_bounded (closes : List ℚ) (i : ℕ) (x : ℚ)
    (h : calculate_rsi closes 14 i = Ext.num x) : 0 ≤ x ∧ x ≤ 100 := by
  rcases hg : gain closes 14 i with _ | g
  · rw [calculate_rsi, rs, hg] at h
    rw [show toExt none = Ext.nan from rfl, Ext.div_nan_left, Ext.add_nan_right] at h
    rw [show Ext.div (Ext.num (100 : ℚ)) Ext.nan = Ext.nan from rfl] at h
    exact absurd h (by simp [Ext.sub])
  · rcases hl : loss closes 14 i with _ | l
    · rw [calculate_rsi, rs, hg, hl] at h
      rw [show toExt none = Ext.nan from rfl, Ext.div_nan_right, Ext.add_nan_right] at h
      rw [show Ext.div (Ext.num (100 : ℚ)) Ext.nan = Ext.nan from rfl] at h
      exact absurd h (by simp [Ext.sub])
    · have hg0 : 0 ≤ g := gain_nonneg hg
      have hl0 : 0 ≤ l := loss_nonneg hl
      rw [calculate_rsi, rs, hg, hl] at h
      simp only [toExt] at h
      by_cases hlz : l = 0
      · subst hlz
        by_cases hgz : 0 < g
        · rw [show Ext.div (Ext.num g) (Ext.num 0) = Ext.pinf by simp [Ext.div, hgz]] at h
          rw [show Ext.add (Ext.num (1 : ℚ)) Ext.pinf = Ext.pinf from rfl] at h
          rw [show Ext.div (Ext.num (100 : ℚ)) Ext.pinf = Ext.num 0 from rfl] at h
          rw [show Ext.sub (Ext.num (100 : ℚ)) (Ext.num 0) = Ext.num (100 - 0) from rfl] at h
          have hx := Ext.num.inj h.symm
          rw [hx]
          norm_num
        · have hgz0 : g = 0 := le_antisymm (not_lt.1 hgz) hg0
          subst hgz0
          rw [show Ext.div (Ext.num (0 : ℚ)) (Ext.num 0) = Ext.nan by simp [Ext.div]] at h
          rw [Ext.add_nan_right] at h
          rw [show Ext.div (Ext.num (100 : ℚ)) Ext.nan = Ext.nan from rfl] at h
          exact absurd h (by simp [Ext.sub])
      · have hlpos : 0 < l := lt_of_le_of_ne hl0 (Ne.symm hlz)
        rw [show Ext.div (Ext.num g) (Ext.num l) = Ext.num (g / l) by
          simp [Ext.div, hlz]] at h
        have hr0 : 0 ≤ g / l := div_nonneg hg0 hl0
        rw [show Ext.add (Ext.num (1 : ℚ)) (Ext.num (g / l)) = Ext.num (1 + g / l)
          from rfl] at h
        have h1r : (1 : ℚ) + g / l ≠ 0 := by positivity
        rw [show Ext.div (Ext.num (100 : ℚ)) (Ext.num (1 + g / l))
            = Ext.num (100 / (1 + g / l)) by simp [Ext.div, h1r]] at h
        rw [show Ext.sub (Ext.num (100 : ℚ)) (Ext.num (100 / (1 + g / l)))
            = Ext.num (100 - 100 / (1 + g / l)) from rfl] at h
        have hx := Ext.num.inj h.symm
        have hpos : 0 < (1 : ℚ) + g / l := by positivity
        have hle : 100 / (1 + g / l) ≤ 100 := by
          apply div_le_self (by norm_num)
          linarith
        have hgt : 0 < 100 / (1 + g / l) := by positivity
        constructor
        · rw [hx]; linarith
        · rw [hx]; linarith

/-- Witness for C9: an alternating series gives RSI = 700/13 at index
13, inside [0, 100]. -/
theorem rsi_bounded_witness :
    calculate_rsi [1, 2, 1, 2, 1, 2, 1, 2, 1, 2, 1, 2, 1, 2, 1] 14 13 = Ext.num (700 / 13)
    ∧ 0 ≤ (700 / 13 : ℚ) ∧ (700 / 13 : ℚ) ≤ 100 := by
  have hval : calculate_rsi [1, 2, 1, 2, 1, 2, 1, 2, 1, 2, 1, 2, 1, 2, 1] 14 13
      = Ext.num (700 / 13) := by
    have hgain : gain [1, 2, 1, 2, 1, 2, 1, 2, 1, 2, 1, 2, 1, 2, 1] 14 13 = some (1 / 2) := by
      norm_num [gain, rollingMean, gainW, delta, List.range_succ]
    have hloss : loss [1, 2, 1, 2, 1, 2, 1, 2, 1, 2, 1, 2, 1, 2, 1] 14 13 = some (3 / 7) := by
      norm_num [loss, rollingMean, lossW, delta, List.range_succ]
    rw [calculate_rsi, rs, hgain, hloss]
    simp only [toExt]
    rw [show Ext.div (Ext.num ((1 : ℚ) / 2)) (Ext.num (3 / 7)) = Ext.num ((1 / 2) / (3 / 7)) by
      norm_num [Ext.div]]
    rw [show Ext.add (Ext.num (1 : ℚ)) (Ext.num ((1 / 2) / (3 / 7)))
        = Ext.num (1 + (1 / 2) / (3 / 7)) from rfl]
    rw [show Ext.div (Ext.num (100 : ℚ)) (Ext.num (1 + (1 / 2) / (3 / 7)))
        = Ext.num (100 / (1 + (1 / 2) / (3 / 7))) by norm_num [Ext.div]]
    rw [show Ext.sub (Ext.num (100 : ℚ)) (Ext.num (100 / (1 + (1 / 2) / (3 / 7))))
        = Ext.num (100 - 100 / (1 + (1 / 2) / (3 / 7))) from rfl]
    norm_num
  exact ⟨hval, rsi_bounded [1, 2, 1, 2, 1, 2, 1, 2, 1, 2, 1, 2, 1, 2, 1] 13 (700 / 13) hval⟩

/-! ### Claim C2: rolling annualized volatility -/

lemma rollingSVar_vol_some {closes : List ℚ}
    (hpos : ∀ k, k < closes.length → 0 < closes.getD k 0)
    {i : ℕ} (h20 : 20 ≤ i) (hi : i < closes.length) :
    rollingSVar 20 (Daily_Return closes) i
      = some (svar ((List.range 20).map fun j => (Daily_Return closes (i + 1 - 20 + j)).getD 0)) := by
  have hall : ((List.range 20).map fun j => Daily_Return closes (i + 1 - 20 + j)).all
      Option.isSome = true := by
    rw [List.all_eq_true]
    intro o ho
    obtain ⟨j, hj, rfl⟩ := List.mem_map.1 ho
    have hjw : j < 20 := List.mem_range.1 hj
    rw [Daily_Return_pos_some hpos (show 1 ≤ i + 1 - 20 + j by omega)
      (show i + 1 - 20 + j < closes.length by omega)]
    rfl
  have hcond : 20 ≤ i + 1 ∧ ((List.range 20).map fun j =>
      Daily_Return closes (i + 1 - 20 + j)).all Option.isSome := ⟨by omega, hall⟩
  simp only [rollingSVar]
  rw [if_pos hcond]
  refine congrArg some ?_
  refine congrArg svar ?_
  rw [List.map_map]
  rfl

lemma rollingSVar_vol_none {closes : List ℚ} {i : ℕ} (h20 : ¬ 20 ≤ i) :
    rollingSVar 20 (Daily_Return closes) i = none := by
  simp only [rollingSVar]
  rw [if_neg]
  rintro ⟨h1, h2⟩
  have hi19 : i = 19 := by omega
  subst hi19
  have hm : Daily_Return closes (19 + 1 - 20 + 0) ∈
      (List.range 20).map fun j => Daily_Return closes (19 + 1 - 20 + j) :=
    List.mem_map.2 ⟨0, List.mem_range.2 (by norm_num), rfl⟩
  have hx := List.all_eq_true.1 h2 _ hm
  rw [show (19 + 1 - 20 + 0 : ℕ) = 0 by norm_num, Daily_Return_zero] at hx
  simp at hx

/-- Claim C2 (corrected): for a series with positive closes, the 20-day
annualized volatility at a defined index equals the sample standard
deviation (denominator 19) of daily_return over the window i-19 .. i
times sqrt(252); but it is defined exactly for i >= 20, not i >= 19 as
the frozen claim says: daily_return[0] is itself NaN and sits inside the
first full window, so the window ending at index 19 is undefined. -/
theorem Volatility_window (closes : List ℚ)
    (hpos : ∀ k, k < closes.length → 0 < closes.getD k 0) (i : ℕ) (hi : i < closes.length) :
    ((Volatility closes i).isSome ↔ 20 ≤ i)
    ∧ (20 ≤ i → Volatility closes i =
        some (Real.sqrt ((svar ((List.range 20).map fun j =>
            (Daily_Return closes (i + 1 - 20 + j)).getD 0) : ℚ) : ℝ) * Real.sqrt 252)) := by
  constructor
  · constructor
    · intro hs
      by_contra h20
      rw [Volatility, rollingSVar_vol_none h20] at hs
      simp at hs
    · intro h20
      rw [Volatility, rollingSVar_vol_some hpos h20 hi]
      rfl
  · intro h20
    rw [Volatility, rollingSVar_vol_some hpos h20 hi]
    rfl

/-- Witness for C2 on a 22-element positive series at index 20. -/
theorem Volatility_window_witness :
    (Volatility (List.replicate 22 (1 : ℚ)) 20).isSome = true := by
  have hpos : ∀ k, k < (List.replicate 22 (1 : ℚ)).length →
      0 < (List.replicate 22 (1 : ℚ)).getD k 0 := by
    intro k hk
    rw [List.length_replicate] at hk
    rw [List.getD_eq_getElem?_getD, List.getElem?_replicate, if_pos hk]
    norm_num
  exact ((Volatility_window (List.replicate 22 (1 : ℚ)) hpos 20 (by simp)).1).mpr (by norm_num)

/-- Counterexample for C2 as frozen: on a 20-element positive series the
entry at index 19 = w - 1 is undefined, although 19 is in range and the
claim asserts definedness for every i >= w - 1 = 19. -/
theorem Volatility_undefined_at_19 :
    Volatility (List.replicate 20 1) 19 = none
    ∧ 20 - 1 ≤ 19 ∧ 19 < (List.replicate 20 (1 : ℚ)).length := by
  refine ⟨?_, by norm_num, by simp⟩
  rw [Volatility, rollingSVar_vol_none (by norm_num)]
  rfl

/-! ### Claim C8: constant price series -/

lemma svar_replicate_zero (m : ℕ) : svar (List.replicate m 0) = 0 := by
  simp [svar, List.map_replicate, List.sum_replicate]

lemma Daily_Return_replicate_cases (c : ℚ) (hc : c ≠ 0) (n k : ℕ) :
    Daily_Return (List.replicate n c) k = none ∨ Daily_Return (List.replicate n c) k = some 0 := by
  by_cases h0 : k = 0
  · left
    rw [h0, Daily_Return_zero]
  · by_cases hk : k < n
    · right
      simp only [Daily_Return, if_neg h0, List.getElem?_replicate]
      rw [if_pos hk, if_pos (show k - 1 < n by omega)]
      show (if c = 0 then none else some (c / c - 1)) = some 0
      rw [if_neg hc, div_self hc]
      norm_num
    · left
      simp only [Daily_Return, if_neg h0, List.getElem?_replicate]
      rw [if_neg hk]

lemma gainW_replicate_eq_lossW (c : ℚ) (hc : c ≠ 0) (n : ℕ) :
    gainW (List.replicate n c) = lossW (List.replicate n c) := by
  funext i
  simp only [gainW, lossW]
  by_cases hi : i < (List.replicate n c).length
  · rw [if_pos hi, if_pos hi]
    rcases hdel : delta (List.replicate n c) i with _ | d
    · rfl
    · have hd0 : d = 0 := by
        by_cases h0 : i = 0
        · rw [h0] at hdel
          simp [delta] at hdel
        · rw [List.length_replicate] at hi
          simp only [delta, if_neg h0, List.getElem?_replicate] at hdel
          rw [if_pos hi, if_pos (show i - 1 < n by omega)] at hdel
          have := Option.some.inj hdel
          rw [← this]
          ring
      rw [hd0]
      norm_num
  · rw [if_neg hi, if_neg hi]

lemma gain_replicate (c : ℚ) (hc : c ≠ 0) (n period i : ℕ) :
    gain (List.replicate n c) period i = none ∨ gain (List.replicate n c) period i = some 0 := by
  rcases h : gain (List.replicate n c) period i with _ | v
  · exact Or.inl rfl
  · right
    refine congrArg some ?_
    simp only [gain, rollingMean] at h
    split at h
    · have hv := Option.some.inj h
      rw [← hv]
      have hz : ∀ x ∈ ((List.range period).map fun j =>
          gainW (List.replicate n c) (i + 1 - period + j)).map (fun o => o.getD 0), x = 0 := by
        intro x hx
        rw [List.map_map] at hx
        obtain ⟨j, hj, rfl⟩ := List.mem_map.1 hx
        simp only [Function.comp]
        by_cases hik : i + 1 - period + j < (List.replicate n c).length
        · simp only [gainW, if_pos hik, Option.getD_some]
          rcases hdel : delta (List.replicate n c) (i + 1 - period + j) with _ | d
          · rfl
          · have hd0 : d = 0 := by
              by_cases h0 : i + 1 - period + j = 0
              · rw [h0] at hdel
                simp [delta] at hdel
              · rw [List.length_replicate] at hik
                simp only [delta, if_neg h0, List.getElem?_replicate] at hdel
                rw [if_pos hik, if_pos (by omega)] at hdel
                have := Option.some.inj hdel
                rw [← this]
                ring
            rw [hd0]
            norm_num
        · rw [List.length_replicate] at hik
          simp only [gainW, List.length_replicate]
          rw [if_neg hik]
          rfl
      rw [List.sum_eq_zero hz, zero_div]
    · exact absurd h (by simp)

lemma ewmaAux_replicate (a x : ℚ) (m : ℕ) :
    ewmaAux a x (List.replicate m x) = List.replicate m x := by
  induction m with
  | zero => rfl
  | succ k ih =>
    rw [List.replicate_succ]
    show (a * x + (1 - a) * x) :: ewmaAux a (a * x + (1 - a) * x) (List.replicate k x)
        = x :: List.replicate k x
    have hy : a * x + (1 - a) * x = x := by ring
    rw [hy, ih]

lemma ewma_replicate (s n : ℕ) (x : ℚ) :
    ewma s (List.replicate n x) = List.replicate n x := by
  cases n with
  | zero => rfl
  | succ k =>
    rw [List.replicate_succ]
    show x :: ewmaAux (2 / ((s : ℚ) + 1)) x (List.replicate k x) = x :: List.replicate k x
    rw [ewmaAux_replicate]

/-- Claim C8 (confirmed): on a constant positive series, daily_return is
0 at every in-range index i >= 1, volatility is 0 wherever defined, RSI
is the undefined marker at every index i >= 14 (average gain and loss
are both zero there), and MACD, signal line and histogram are 0 at every
index. -/
theorem constant_series_indicators (c : ℚ) (n : ℕ) (hc : 0 < c) :
    (∀ i, 1 ≤ i → i < n → Daily_Return (List.replicate n c) i = some 0)
    ∧ (∀ i v, Volatility (List.replicate n c) i = some v → v = 0)
    ∧ (∀ i, 14 ≤ i → calculate_rsi (List.replicate n c) 14 i = Ext.nan)
    ∧ MACD (List.replicate n c) = List.replicate n 0
    ∧ Signal_Line (List.replicate n c) = List.replicate n 0
    ∧ MACD_Histogram (List.replicate n c) = List.replicate n 0 := by
  have hc0 : c ≠ 0 := ne_of_gt hc
  have hret : ∀ i, 1 ≤ i → i < n → Daily_Return (List.replicate n c) i = some 0 := by
    intro i h1 hi
    simp only [Daily_Return, if_neg (show ¬ i = 0 by omega), List.getElem?_replicate]
    rw [if_pos hi, if_pos (show i - 1 < n by omega)]
    show (if c = 0 then none else some (c / c - 1)) = some 0
    rw [if_neg hc0, div_self hc0]
    norm_num
  have hvol : ∀ i v, Volatility (List.replicate n c) i = some v → v = 0 := by
    intro i v hv
    rw [Volatility] at hv
    obtain ⟨q, hsv, hfq⟩ := Option.map_eq_some'.1 hv
    have hq : q = 0 := by
      simp only [rollingSVar] at hsv
      split at hsv
      · have hqe := Option.some.inj hsv
        have hmem : ∀ x ∈ ((List.range 20).map fun j =>
            Daily_Return (List.replicate n c) (i + 1 - 20 + j)).map (fun o => o.getD 0),
            x = 0 := by
          intro x hx
          rw [List.map_map] at hx
          obtain ⟨j, hj, rfl⟩ := List.mem_map.1 hx
          simp only [Function.comp]
          rcases Daily_Return_replicate_cases c hc0 n (i + 1 - 20 + j) with hd | hd <;>
            rw [hd] <;> rfl
        have hrep := List.eq_replicate.2 ⟨rfl, hmem⟩
        rw [← hqe, hrep, svar_replicate_zero]
      · exact absurd hsv (by simp)
    rw [← hfq]
    show Real.sqrt ((q : ℚ) : ℝ) * Real.sqrt 252 = 0
    rw [hq]
    push_cast
    rw [Real.sqrt_zero, zero_mul]
  have hrsi : ∀ i, 14 ≤ i → calculate_rsi (List.replicate n c) 14 i = Ext.nan := by
    intro i _
    have hrs : rs (List.replicate n c) 14 i = Ext.nan := by
      rw [rs]
      have hle : loss (List.replicate n c) 14 i = gain (List.replicate n c) 14 i := by
        rw [loss, gain, gainW_replicate_eq_lossW c hc0 n]
      rw [hle]
      rcases gain_replicate c hc0 n 14 i with hg | hg <;> rw [hg]
      · rfl
      · show Ext.div (Ext.num (0 : ℚ)) (Ext.num 0) = Ext.nan
        simp [Ext.div]
    rw [calculate_rsi, hrs]
    rfl
  have hmacd : MACD (List.replicate n c) = List.replicate n 0 := by
    rw [MACD, exp1, exp2, ewma_replicate, ewma_replicate, List.zipWith_replicate]
    simp
  have hsig : Signal_Line (List.replicate n c) = List.replicate n 0 := by
    rw [Signal_Line, hmacd, ewma_replicate]
  have hhist : MACD_Histogram (List.replicate n c) = List.replicate n 0 := by
    rw [MACD_Histogram, hmacd, hsig, List.zipWith_replicate]
    simp
  exact ⟨hret, hvol, hrsi, hmacd, hsig, hhist⟩

/-- Witness for C8 on the constant series of forty ones. -/
theorem constant_series_indicators_witness :
    Daily_Return (List.replicate 40 (1 : ℚ)) 1 = some 0
    ∧ calculate_rsi (List.replicate 40 (1 : ℚ)) 14 20 = Ext.nan
    ∧ MACD (List.replicate 40 (1 : ℚ)) = List.replicate 40 0 := by
  have h := constant_series_indicators 1 40 (by norm_num)
  exact ⟨h.1 1 (by norm_num) (by norm_num), h.2.2.1 20 (by norm_num), h.2.2.2.1⟩

/-! ### Claim C5: Sharpe ratio -/

lemma Ext.mul_num_num (a b : α) : Ext.mul (Ext.num a) (Ext.num b) = Ext.num (a * b) := rfl

lemma Ext.div_num_num {a b : α} (hb : b ≠ 0) :
    Ext.div (Ext.num a) (Ext.num b) = Ext.num (a / b) := by
  simp [Ext.div, hb]

lemma Ext.div_num_zero_pos {a : α} (ha : 0 < a) :
    Ext.div (Ext.num a) (Ext.num 0) = Ext.pinf := by
  simp [Ext.div, ha]

lemma Ext.div_num_zero_zero : Ext.div (Ext.num (0 : α)) (Ext.num 0) = Ext.nan := by
  simp [Ext.div]

lemma Daily_Return_replicate_some (c : ℚ) (hc : c ≠ 0) (n i : ℕ) (h1 : 1 ≤ i) (hi : i < n) :
    Daily_Return (List.replicate n c) i = some 0 := by
  simp only [Daily_Return, if_neg (show ¬ i = 0 by omega), List.getElem?_replicate]
  rw [if_pos hi, if_pos (show i - 1 < n by omega)]
  show (if c = 0 then none else some (c / c - 1)) = some 0
  rw [if_neg hc, div_self hc]
  norm_num

lemma returnVals_replicate_aux (c : ℚ) (hc : c ≠ 0) (n : ℕ) :
    ∀ m, m ≤ n → (List.range m).filterMap (Daily_Return (List.replicate n c))
      = List.replicate (m - 1) 0 := by
  intro m
  induction m with
  | zero => intro _; rfl
  | succ k ih =>
    intro hk1
    rw [List.range_succ, List.filterMap_append, ih (by omega)]
    by_cases hk0 : k = 0
    · subst hk0
      simp [List.filterMap_cons, Daily_Return_zero]
    · rw [show List.filterMap (Daily_Return (List.replicate n c)) [k] = [0] by
        simp [List.filterMap_cons, Daily_Return_replicate_some c hc n k (by omega) (by omega)]]
      obtain ⟨j, rfl⟩ : ∃ j, k = j + 1 := ⟨k - 1, by omega⟩
      simp only [Nat.add_sub_cancel]
      rw [List.replicate_succ']

lemma returnVals_replicate (c : ℚ) (hc : c ≠ 0) (n : ℕ) :
    returnVals (List.replicate n c) = List.replicate (n - 1) 0 := by
  rw [returnVals, List.length_replicate]
  exact returnVals_replicate_aux c hc n n le_rfl

/-- Claim C5 (corrected): for a genuinely flat series (constant closes,
at least three observations so the sample deviation is a number), the
script Sharpe ratio is NaN, the unavailable marker, with no exception
and no infinity: the division is 0/0.  Where the sample standard
deviation of the returns is positive, the Sharpe ratio is the finite
number mean * 252 / (std * sqrt 252); the second part is stated for
series of strictly positive closes, the domain on which the Daily_Return
model is exact (a zero close makes the script produce an infinite
return, outside this model).  The frozen claim quantified over EVERY
series whose returns have zero standard deviation; for those with a
nonzero mean (constant growth) the script produces an infinity, not the
unavailable marker (see the counterexample). -/
theorem sharpe_flat_unavailable :
    (∀ (c : ℚ) (n : ℕ), 0 < c → 3 ≤ n → sharpe_ratio (List.replicate n c) = Ext.nan)
    ∧ (∀ closes : List ℚ, (∀ k, k < closes.length → 0 < closes.getD k 0) →
        2 ≤ (returnVals closes).length → 0 < svar (returnVals closes) →
        sharpe_ratio closes = Ext.num
          ((((returnVals closes).sum / ((returnVals closes).length : ℚ) : ℚ) : ℝ) * 252 /
            (Real.sqrt ((svar (returnVals closes) : ℚ) : ℝ) * Real.sqrt 252))) := by
  constructor
  · intro c n hc h3
    have hrv := returnVals_replicate c (ne_of_gt hc) n
    simp only [sharpe_ratio, meanReturn, stdReturn, hrv]
    rw [List.length_replicate, List.sum_replicate]
    rw [if_neg (show ¬ (n - 1 = 0) by omega), if_neg (show ¬ (n - 1 < 2) by omega)]
    rw [smul_zero, zero_div, svar_replicate_zero]
    show Ext.div (Ext.mul (Ext.num ((0 : ℚ) : ℝ)) (Ext.num 252))
        (Ext.mul (Ext.num (Real.sqrt ((0 : ℚ) : ℝ))) (Ext.num (Real.sqrt 252))) = Ext.nan
    rw [Ext.mul_num_num, Ext.mul_num_num]
    have h1 : ((0 : ℚ) : ℝ) * 252 = 0 := by push_cast; ring
    have h2 : Real.sqrt ((0 : ℚ) : ℝ) * Real.sqrt 252 = 0 := by
      push_cast
      rw [Real.sqrt_zero, zero_mul]
    rw [h1, h2]
    exact Ext.div_num_zero_zero
  · intro closes _ h2 hsv
    simp only [sharpe_ratio, meanReturn, stdReturn]
    rw [if_neg (show ¬ ((returnVals closes).length = 0) by omega),
      if_neg (show ¬ ((returnVals closes).length < 2) by omega)]
    show Ext.div
        (Ext.mul (Ext.num (((returnVals closes).sum / ((returnVals closes).length : ℚ) : ℚ) : ℝ))
          (Ext.num 252))
        (Ext.mul (Ext.num (Real.sqrt ((svar (returnVals closes) : ℚ) : ℝ)))
          (Ext.num (Real.sqrt 252))) = _
    rw [Ext.mul_num_num, Ext.mul_num_num]
    have hden : Real.sqrt ((svar (returnVals closes) : ℚ) : ℝ) * Real.sqrt 252 ≠ 0 := by
      apply ne_of_gt
      apply mul_pos
      · exact Real.sqrt_pos.2 (by exact_mod_cast hsv)
      · exact Real.sqrt_pos.2 (by norm_num)
    rw [Ext.div_num_num hden]

/-- Witness for C5: the flat series of three ones gives the NaN marker,
and [1, 2, 1] has positive sample variance so the formula applies. -/
theorem sharpe_flat_unavailable_witness :
    sharpe_ratio (List.replicate 3 (1 : ℚ)) = Ext.nan
    ∧ sharpe_ratio [1, 2, 1] = Ext.num
        ((((returnVals [1, 2, 1]).sum / ((returnVals [1, 2, 1]).length : ℚ) : ℚ) : ℝ) * 252 /
          (Real.sqrt ((svar (returnVals [1, 2, 1]) : ℚ) : ℝ) * Real.sqrt 252)) := by
  constructor
  · exact sharpe_flat_unavailable.1 1 3 (by norm_num) (by norm_num)
  · refine sharpe_flat_unavailable.2 [1, 2, 1] ?_ ?_ ?_
    · decide
    · norm_num [returnVals, Daily_Return, List.range_succ, List.filterMap_cons]
    · norm_num [returnVals, Daily_Return, List.range_succ, List.filterMap_cons, svar]

/-- Counterexample for C5 as frozen: [1, 2, 4] has daily returns [1, 1]
with zero sample standard deviation but nonzero mean, and the script
produces plus infinity, not the unavailable marker. -/
theorem sharpe_inf_on_zero_variance :
    sharpe_ratio [1, 2, 4] = Ext.pinf ∧ Ext.pinf ≠ (Ext.nan : Ext ℝ) := by
  constructor
  · have hrv : returnVals [1, 2, 4] = [1, 1] := by
      norm_num [returnVals, Daily_Return, List.range_succ, List.filterMap_cons]
    have hsv : svar ([1, 1] : List ℚ) = 0 := by
      norm_num [svar]
    have hmean : ([1, 1] : List ℚ).sum / ((([1, 1] : List ℚ).length : ℕ) : ℚ) = 1 := by
      norm_num
    simp only [sharpe_ratio, meanReturn, stdReturn, hrv, hsv, hmean]
    rw [if_neg (show ¬ ((([1, 1] : List ℚ).length : ℕ) = 0) by norm_num),
      if_neg (show ¬ ((([1, 1] : List ℚ).length : ℕ) < 2) by norm_num)]
    show Ext.div (Ext.mul (Ext.num ((1 : ℚ) : ℝ)) (Ext.num 252))
        (Ext.mul (Ext.num (Real.sqrt ((0 : ℚ) : ℝ))) (Ext.num (Real.sqrt 252))) = Ext.pinf
    rw [Ext.mul_num_num, Ext.mul_num_num]
    have h1 : ((1 : ℚ) : ℝ) * 252 = 252 := by push_cast; ring
    have h2 : Real.sqrt ((0 : ℚ) : ℝ) * Real.sqrt 252 = 0 := by
      push_cast
      rw [Real.sqrt_zero, zero_mul]
    rw [h1, h2]
    exact Ext.div_num_zero_pos (by norm_num)
  · intro h
    exact Ext.noConfusion h

end Dkng
